import Mathlib

/-!
Verification of the `SecretOfTheDeepNFT` token contract
(`src/contracts/SecretOfTheDeepNFT.sol`) and the chunked event scanner
(`src/scripts/domain/get-token-events.ts`).

The contract is shallowly embedded as a state record over an abstract
address type together with one Lean function per external Solidity
function.  Each function returns `Except Err (State Addr)`: a Solidity
`revert` (failed `require`, checked-arithmetic panic, array
out-of-bounds panic, or a revert bubbling out of an external call)
corresponds to `Except.error`, and because the EVM rolls the whole
transaction back, a reverted call leaves the caller with the pre-state;
the embedding therefore never exposes a partially mutated state.

Machine integers: `uint256` quantities are modelled as `Nat`.  Checked
subtraction (which panics on underflow in Solidity >= 0.8) is modelled
by an explicit `<` guard returning `Err.Underflow`.  Checked addition
can only fail near `2 ^ 256`; the `Nat` model lets those additions
succeed with their mathematical value, which agrees with the source
whenever the source does not revert on overflow (no claim exercises
values of that magnitude).

Error taxonomy (spec section 7) against the source's revert reasons:
  * `onlyOwner` / `ERC1155MissingApprovalForAll` / "Not authorized to
    burn"                                   -> `Err.Unauthorized`
  * "Token does not exist"                  -> `Err.NotFound`
  * "Token already exists"                  -> `Err.AlreadyExists`
  * "... must be greater than 0", "Invalid recipient address"
                                            -> `Err.InvalidArgument`
  * "Exceeds max supply"                    -> `Err.SupplyExceeded`
  * "Arrays length mismatch"                -> `Err.LengthMismatch`
  * `ERC1155InsufficientBalance`, "Insufficient token balance",
    "Insufficient USDC balance (in wallet)" -> `Err.InsufficientBalance`
  * "USDC transfer failed"                  -> `Err.TransferFailed`
  * checked-arithmetic underflow panic (0x11) -> `Err.Underflow`
  * array index out of bounds panic (0x32)  -> `Err.OutOfBounds`
-/

namespace SOTD

/-- Failure kinds of the embedded operations (spec section 7 taxonomy plus
the two Solidity panics the source can raise). -/
inductive Err where
  | Unauthorized
  | NotFound
  | AlreadyExists
  | InvalidArgument
  | SupplyExceeded
  | InsufficientBalance
  | LengthMismatch
  | TransferFailed
  | Underflow
  | OutOfBounds
  deriving DecidableEq

/-- `struct TokenInfo` of the contract. -/
structure TokenInfo where
  name : String
  description : String
  maxSupply : Nat
  currentSupply : Nat
  isActive : Bool
  deriving DecidableEq

/-- Solidity `mapping` default value for `TokenInfo`. -/
def TokenInfo.empty : TokenInfo := ⟨"", "", 0, 0, false⟩

/-- The contract state, over an abstract address type `Addr`.
`balances` is the ERC-1155 `_balances` mapping (token id -> account ->
amount); `usdc` is `usdc.balanceOf(address(this))` on the external USDC
ledger, `usdcOf` the other accounts' USDC balances, and `allowance a`
the USDC allowance account `a` has granted to this contract. -/
structure State (Addr : Type) where
  owner : Addr
  tokenInfo : Nat → TokenInfo
  balances : Nat → Addr → Nat
  operatorApprovals : Addr → Addr → Bool
  baseURI : List Char
  usdc : Nat
  usdcOf : Addr → Nat
  allowance : Addr → Nat

variable {Addr : Type} [DecidableEq Addr]

/-- Write one token record in the `tokenInfo` mapping. -/
def putTok (ti : Nat → TokenInfo) (id : Nat) (t : TokenInfo) : Nat → TokenInfo :=
  fun i => if i = id then t else ti i

/-- Write one balance cell in the `_balances` mapping. -/
def putBal (b : Nat → Addr → Nat) (id : Nat) (a : Addr) (v : Nat) :
    Nat → Addr → Nat :=
  fun i => if i = id then Function.update (b i) a v else b i

/-- `_createToken` (internal): unconditionally installs the record with
`currentSupply = 0` and `isActive = true`. -/
def createTokenRecord (s : State Addr) (tokenId : Nat) (nm descr : String)
    (maxSupply : Nat) : State Addr :=
  { s with tokenInfo := putTok s.tokenInfo tokenId ⟨nm, descr, maxSupply, 0, true⟩ }

/-- `createToken` (external, `onlyOwner`): requires the id inactive and
`maxSupply > 0`, then installs the record. -/
def createToken (s : State Addr) (caller : Addr) (tokenId : Nat)
    (nm descr : String) (maxSupply : Nat) : Except Err (State Addr) :=
  if caller ≠ s.owner then .error .Unauthorized
  else if (s.tokenInfo tokenId).isActive then .error .AlreadyExists
  else if maxSupply = 0 then .error .InvalidArgument
  else .ok (createTokenRecord s tokenId nm descr maxSupply)

/-- `mint` (external, `onlyOwner`): requires the token active and
`currentSupply + amount <= maxSupply`, then increments the supply and
credits `dst` (OpenZeppelin `_mint`). -/
def mint (s : State Addr) (caller dst : Addr) (tokenId amount : Nat) :
    Except Err (State Addr) :=
  if caller ≠ s.owner then .error .Unauthorized
  else if ¬(s.tokenInfo tokenId).isActive then .error .NotFound
  else if (s.tokenInfo tokenId).maxSupply <
      (s.tokenInfo tokenId).currentSupply + amount then .error .SupplyExceeded
  else .ok { s with
    tokenInfo := putTok s.tokenInfo tokenId
      { s.tokenInfo tokenId with
        currentSupply := (s.tokenInfo tokenId).currentSupply + amount },
    balances := putBal s.balances tokenId dst
      (s.balances tokenId dst + amount) }

/-- The validation-and-supply-increment loop of `mintBatch` (source lines
130-138): each pair is checked against the *running* `tokenInfo` mapping,
which already carries the increments of the preceding pairs, and the
increment for the pair is applied before the next pair is examined. -/
def mintBatchLoop (ti : Nat → TokenInfo) :
    List (Nat × Nat) → Except Err (Nat → TokenInfo)
  | [] => .ok ti
  | (id, amt) :: rest =>
    if ¬(ti id).isActive then .error .NotFound
    else if (ti id).maxSupply < (ti id).currentSupply + amt then
      .error .SupplyExceeded
    else mintBatchLoop
      (putTok ti id { ti id with currentSupply := (ti id).currentSupply + amt })
      rest

/-- The balance updates of OpenZeppelin `_mintBatch`: credit `dst` with
each pair's amount, in order. -/
def addBalances (b : Nat → Addr → Nat) (dst : Addr) :
    List (Nat × Nat) → Nat → Addr → Nat
  | [] => b
  | (id, amt) :: rest =>
    addBalances (putBal b id dst (b id dst + amt)) dst rest

/-- `mintBatch` (external, `onlyOwner`): array lengths must match; then
the interleaved validate-and-increment loop runs over all pairs, and on
its success OpenZeppelin `_mintBatch` credits `dst` with every amount. -/
def mintBatch (s : State Addr) (caller dst : Addr) (tokenIds amounts : List Nat) :
    Except Err (State Addr) :=
  if caller ≠ s.owner then .error .Unauthorized
  else if tokenIds.length ≠ amounts.length then .error .LengthMismatch
  else
    match mintBatchLoop s.tokenInfo (tokenIds.zip amounts) with
    | .error e => .error e
    | .ok ti' => .ok { s with
        tokenInfo := ti',
        balances := addBalances s.balances dst (tokenIds.zip amounts) }

/-- `burn` (external): caller must be `frm` or the owner.  There is no
explicit balance pre-check: the source first executes
`tokenInfo[tokenId].currentSupply -= amount` (checked arithmetic, panics
on underflow) and only then OpenZeppelin `_burn`, whose `_update`
reverts with `ERC1155InsufficientBalance` when `frm`'s balance is short.
Note also that `burn` never checks `isActive`. -/
def burn (s : State Addr) (caller frm : Addr) (tokenId amount : Nat) :
    Except Err (State Addr) :=
  if ¬(caller = frm ∨ caller = s.owner) then .error .Unauthorized
  else if (s.tokenInfo tokenId).currentSupply < amount then .error .Underflow
  else if s.balances tokenId frm < amount then .error .InsufficientBalance
  else .ok { s with
    tokenInfo := putTok s.tokenInfo tokenId
      { s.tokenInfo tokenId with
        currentSupply := (s.tokenInfo tokenId).currentSupply - amount },
    balances := putBal s.balances tokenId frm
      (s.balances tokenId frm - amount) }

/-- `payback` (external, `onlyOwner`): validates token activity, both
amounts positive, the holder's token balance, and the contract's USDC
balance; then burns (supply decrement followed by `_burn`) and transfers
`usdcAmount` of USDC to `frm`.  The external `usdc.transfer` follows
ERC-20 semantics: it succeeds exactly when the contract's balance
suffices, which the preceding `require` has already established. -/
def payback (s : State Addr) (caller frm : Addr)
    (tokenId tokenAmount usdcAmount : Nat) : Except Err (State Addr) :=
  if caller ≠ s.owner then .error .Unauthorized
  else if ¬(s.tokenInfo tokenId).isActive then .error .NotFound
  else if tokenAmount = 0 then .error .InvalidArgument
  else if s.balances tokenId frm < tokenAmount then .error .InsufficientBalance
  else if usdcAmount = 0 then .error .InvalidArgument
  else if s.usdc < usdcAmount then .error .InsufficientBalance
  else if (s.tokenInfo tokenId).currentSupply < tokenAmount then .error .Underflow
  else .ok { s with
    tokenInfo := putTok s.tokenInfo tokenId
      { s.tokenInfo tokenId with
        currentSupply := (s.tokenInfo tokenId).currentSupply - tokenAmount },
    balances := putBal s.balances tokenId frm
      (s.balances tokenId frm - tokenAmount),
    usdc := s.usdc - usdcAmount,
    usdcOf := Function.update s.usdcOf frm (s.usdcOf frm + usdcAmount) }

/-- `payDividend` (external, `onlyOwner`): sends USDC with no burn.  The
null-recipient check of the source cannot be expressed over an abstract
address type and is dropped; no claim depends on it. -/
def payDividend (s : State Addr) (caller dst : Addr) (usdcAmount : Nat) :
    Except Err (State Addr) :=
  if caller ≠ s.owner then .error .Unauthorized
  else if usdcAmount = 0 then .error .InvalidArgument
  else if s.usdc < usdcAmount then .error .InsufficientBalance
  else .ok { s with
    usdc := s.usdc - usdcAmount,
    usdcOf := Function.update s.usdcOf dst (s.usdcOf dst + usdcAmount) }

/-- `withdrawUSDC` (external, `onlyOwner`). -/
def withdrawUSDC (s : State Addr) (caller : Addr) (amount : Nat) :
    Except Err (State Addr) :=
  if caller ≠ s.owner then .error .Unauthorized
  else if amount = 0 then .error .InvalidArgument
  else if s.usdc < amount then .error .InsufficientBalance
  else .ok { s with
    usdc := s.usdc - amount,
    usdcOf := Function.update s.usdcOf s.owner (s.usdcOf s.owner + amount) }

/-- `addUSDC` (external, `onlyOwner` in the source, line 240): requires
`amount > 0` and `usdc.balanceOf(msg.sender) >= amount`, then performs
`usdc.transferFrom(msg.sender, address(this), amount)` — the external
ERC-20 call that needs prior allowance and whose failure the source
turns into "USDC transfer failed". -/
def addUSDC (s : State Addr) (caller : Addr) (amount : Nat) :
    Except Err (State Addr) :=
  if caller ≠ s.owner then .error .Unauthorized
  else if amount = 0 then .error .InvalidArgument
  else if s.usdcOf caller < amount then .error .InsufficientBalance
  else if s.allowance caller < amount then .error .TransferFailed
  else .ok { s with
    usdc := s.usdc + amount,
    usdcOf := Function.update s.usdcOf caller (s.usdcOf caller - amount),
    allowance := Function.update s.allowance caller (s.allowance caller - amount) }

/-- `updateTokenInfo` (external, `onlyOwner`): name and description only. -/
def updateTokenInfo (s : State Addr) (caller : Addr) (tokenId : Nat)
    (nm descr : String) : Except Err (State Addr) :=
  if caller ≠ s.owner then .error .Unauthorized
  else if ¬(s.tokenInfo tokenId).isActive then .error .NotFound
  else .ok { s with
    tokenInfo := putTok s.tokenInfo tokenId
      { s.tokenInfo tokenId with name := nm, description := descr } }

/-- `setBaseURI` (external, `onlyOwner`). -/
def setBaseURI (s : State Addr) (caller : Addr) (newBaseURI : List Char) :
    Except Err (State Addr) :=
  if caller ≠ s.owner then .error .Unauthorized
  else .ok { s with baseURI := newBaseURI }

/-- ERC-1155 `setApprovalForAll`. -/
def setApprovalForAll (s : State Addr) (caller operator : Addr)
    (approved : Bool) : Except Err (State Addr) :=
  .ok { s with
    operatorApprovals := fun a o =>
      if a = caller ∧ o = operator then approved else s.operatorApprovals a o }

/-- ERC-1155 `safeTransferFrom` (inherited from OpenZeppelin): the caller
must be `frm` or an approved operator, and `frm`'s balance must cover
`amount`; the amount then moves from `frm` to `dst`. -/
def safeTransferFrom (s : State Addr) (caller frm dst : Addr)
    (tokenId amount : Nat) : Except Err (State Addr) :=
  if ¬(caller = frm ∨ s.operatorApprovals frm caller = true) then
    .error .Unauthorized
  else if s.balances tokenId frm < amount then .error .InsufficientBalance
  else
    let b1 := putBal s.balances tokenId frm (s.balances tokenId frm - amount)
    .ok { s with balances := putBal b1 tokenId dst (b1 tokenId dst + amount) }

/-- The constructor: deployer becomes owner, the base URI template is
installed, and sample tokens 1 (GOLD, max 25), 2 (SILVER, max 20) and
3 (BRONZE, max 50) are created.  The external USDC ledger's view of the
other accounts (`extBal`, `extAllow`) is arbitrary at deployment. -/
def initState (deployer : Addr) (extBal extAllow : Addr → Nat) : State Addr :=
  { owner := deployer
    tokenInfo := fun id =>
      if id = 1 then ⟨"GOLD", "Gold", 25, 0, true⟩
      else if id = 2 then ⟨"SILVER", "Silver", 20, 0, true⟩
      else if id = 3 then ⟨"BRONZE", "Bronze", 50, 0, true⟩
      else TokenInfo.empty
    balances := fun _ _ => 0
    operatorApprovals := fun _ _ => false
    baseURI := ("https://raw.githubusercontent.com/davevurby/nft-secret-of-the-deep/refs/heads/main/metadata/" ++ "\x7bid\x7d" ++ ".json").toList
    usdc := 0
    usdcOf := extBal
    allowance := extAllow }

/-- One external call, with its caller and arguments. -/
inductive Op (Addr : Type) where
  | createToken (caller : Addr) (tokenId : Nat) (nm descr : String) (maxSupply : Nat)
  | mint (caller dst : Addr) (tokenId amount : Nat)
  | mintBatch (caller dst : Addr) (tokenIds amounts : List Nat)
  | burn (caller frm : Addr) (tokenId amount : Nat)
  | payback (caller frm : Addr) (tokenId tokenAmount usdcAmount : Nat)
  | payDividend (caller dst : Addr) (usdcAmount : Nat)
  | withdrawUSDC (caller : Addr) (amount : Nat)
  | addUSDC (caller : Addr) (amount : Nat)
  | updateTokenInfo (caller : Addr) (tokenId : Nat) (nm descr : String)
  | setBaseURI (caller : Addr) (newBaseURI : List Char)
  | setApprovalForAll (caller operator : Addr) (approved : Bool)
  | safeTransferFrom (caller frm dst : Addr) (tokenId amount : Nat)

/-- Dispatch an external call. -/
def exec (s : State Addr) : Op Addr → Except Err (State Addr)
  | .createToken c id nm d m => createToken s c id nm d m
  | .mint c dst id a => mint s c dst id a
  | .mintBatch c dst ids as => mintBatch s c dst ids as
  | .burn c f id a => burn s c f id a
  | .payback c f id ta ua => payback s c f id ta ua
  | .payDividend c dst ua => payDividend s c dst ua
  | .withdrawUSDC c a => withdrawUSDC s c a
  | .addUSDC c a => addUSDC s c a
  | .updateTokenInfo c id nm d => updateTokenInfo s c id nm d
  | .setBaseURI c u => setBaseURI s c u
  | .setApprovalForAll c o ap => setApprovalForAll s c o ap
  | .safeTransferFrom c f t id a => safeTransferFrom s c f t id a

/-- States reachable from deployment through successful external calls
(reverted calls leave the state untouched, so only `ok` results step). -/
inductive Reachable : State Addr → Prop where
  | init (deployer : Addr) (extBal extAllow : Addr → Nat) :
      Reachable (initState deployer extBal extAllow)
  | step {s s' : State Addr} (op : Op Addr) :
      Reachable s → exec s op = .ok s' → Reachable s'

/-! ### The URI template resolver (`uri` and `_toHexString`)

Solidity strings are byte arrays; the templates in this repository are
ASCII, so a byte is modelled as a `Char` and compared through its code
point, exactly as the source compares `templateBytes[i]` against the
bytes `0x7b 0x69 0x64 0x7d` (`lbrace`, `i`, `d`, `rbrace`). -/

/-- The byte `0x7b` the source tests for. -/
def lbrace : Char := Char.ofNat 0x7b

/-- The byte `0x7d` the source tests for. -/
def rbrace : Char := Char.ofNat 0x7d

/-- The placeholder pattern the scanning loop recognises. -/
def pat : List Char := [lbrace, 'i', 'd', rbrace]

/-- The four-byte comparison at source lines 327-330. -/
abbrev isPat (c0 c1 c2 c3 : Char) : Prop :=
  c0 = lbrace ∧ c1 = 'i' ∧ c2 = 'd' ∧ c3 = rbrace

/-- `_HEX_SYMBOLS = "0123456789abcdef"`. -/
def hexChars : List Char := "0123456789abcdef".toList

/-- `_HEX_SYMBOLS[value & 0xf]`. -/
def hexChar (n : Nat) : Char := hexChars.getD n '0'

/-- The digit loop of `_toHexString` (source lines 299-302): 64 nibble
writes, least-significant nibble placed last. -/
def hexLoop : Nat → Nat → List Char → List Char
  | 0, _, acc => acc
  | n + 1, v, acc => hexLoop n (v / 16) (hexChar (v % 16) :: acc)

/-- `_toHexString`: 64-character lowercase zero-padded hexadecimal
rendering of `v` (the source short-circuits `v = 0` to a literal of 64
zeros; its `digits` counter is dead code and omitted). -/
def toHexString (v : Nat) : List Char :=
  if v = 0 then List.replicate 64 '0' else hexLoop 64 v []

/-- Number of placeholder occurrences found by the source's scan: after
a match the scan resumes past the whole pattern, otherwise it advances a
single byte. -/
def countPat : List Char → Nat
  | c0 :: c1 :: c2 :: c3 :: rest =>
    if isPat c0 c1 c2 c3 then countPat rest + 1
    else countPat (c1 :: c2 :: c3 :: rest)
  | _ => 0

/-- The byte sequence the scanning loop of `uri` writes (ignoring the
output buffer's capacity): each placeholder is replaced by `hex`, every
other byte is copied verbatim.  The source's guard `i <
templateBytes.length - 3` means a match is only attempted while at least
four bytes remain, which is what the patterns below express.  (For
templates of length 1 or 2 that guard underflows in `uint256` and the
source can read out of bounds; no template with an occurrence — length
at least 4 — is affected, and no claim exercises that corner.) -/
def subst (hex : List Char) : List Char → List Char
  | c0 :: c1 :: c2 :: c3 :: rest =>
    if isPat c0 c1 c2 c3 then hex ++ subst hex rest
    else c0 :: subst hex (c1 :: c2 :: c3 :: rest)
  | l => l

/-- The scanning loop of `uri` (source lines 323-348) together with the
output buffer of capacity `cap = templateBytes.length + 64` (line 321):
`idx` is `resultIndex`, and a write at an index `>= cap` is the Solidity
array out-of-bounds panic.  Writes are sequential, so a block of `n`
writes starting at `idx` is in bounds exactly when `idx + n <= cap`. -/
def uriLoop (hex : List Char) (cap : Nat) :
    List Char → Nat → Except Err (List Char)
  | c0 :: c1 :: c2 :: c3 :: rest, idx =>
    if isPat c0 c1 c2 c3 then
      if idx + hex.length ≤ cap then
        match uriLoop hex cap rest (idx + hex.length) with
        | .error e => .error e
        | .ok r => .ok (hex ++ r)
      else .error .OutOfBounds
    else
      if idx + 1 ≤ cap then
        match uriLoop hex cap (c1 :: c2 :: c3 :: rest) (idx + 1) with
        | .error e => .error e
        | .ok r => .ok (c0 :: r)
      else .error .OutOfBounds
  | c :: rest, idx =>
    if idx + 1 ≤ cap then
      match uriLoop hex cap rest (idx + 1) with
      | .error e => .error e
      | .ok r => .ok (c :: r)
    else .error .OutOfBounds
  | [], _ => .ok []

/-- The template-resolution part of `uri` (source lines 319-356): buffer
of `template.length + 64` bytes, scan, then trim to the written length
(the trim copies `resultIndex` bytes and cannot fail). -/
def resolveTemplate (template : List Char) (tokenId : Nat) :
    Except Err (List Char) :=
  uriLoop (toHexString tokenId) (template.length + 64) template 0

/-- `uri(tokenId)`: requires the token active, then resolves the stored
base URI template. -/
def uri (s : State Addr) (tokenId : Nat) : Except Err (List Char) :=
  if ¬(s.tokenInfo tokenId).isActive then .error .NotFound
  else resolveTemplate s.baseURI tokenId

/-- String-typed wrapper of `resolveTemplate`, for round-trip examples. -/
def resolveString (template : String) (tokenId : Nat) : Except Err String :=
  match resolveTemplate template.toList tokenId with
  | .error e => .error e
  | .ok l => .ok (String.mk l)

/-! ### The chunked event scanner (`get-token-events.ts`)

`getAllEventsInChunks` walks the block range in chunks, querying the
remote provider for `TransferSingle` and then `TransferBatch` events of
each chunk.  The provider is modelled as an oracle mapping an event kind
and a block range to a result; the `await`-driven control flow is
sequential, so the scan is a plain recursion.  The mutual recursion of
the source (the catch-handler calls `getAllEventsInChunks` again) is
made total with a fuel parameter: `none` means the fuel ran out, and
every claim is settled at a fuel large enough for the scenario. -/

/-- A raw transfer event of the remote ledger: emitting block, kind
(`single = true` for `TransferSingle`), and a payload tag telling
distinct events apart. -/
structure Ev where
  blockNumber : Nat
  single : Bool
  payload : Nat
  deriving DecidableEq

/-- Result of one `queryFilter` call: the event list, a "range is too
large" rejection, or any other failure. -/
inductive QueryRes where
  | ok (evs : List Ev)
  | rangeTooLarge
  | otherError
  deriving DecidableEq

/-- The remote provider, queried by event kind and block range. -/
def Oracle := Bool → Nat → Nat → QueryRes

/-- The chunk loop of `getAllEventsInChunks` (source lines 30-74), with
`cur` the provider's current block.  Per iteration: if `startBlock`
passed `cur` the loop ends; otherwise the chunk `[startBlock,
min (startBlock + chunkSize - 1) cur]` is queried for both event kinds.
On success both result lists are appended and the loop advances by
`chunkSize`.  On a range-too-large failure of either query the source
recurses with `fromBlock = startBlock` and chunk size
`max 10 (chunkSize / 10)` — a recursion that scans from `startBlock`
all the way to `cur`, not only the failed chunk (and `fromBlock = 0`
is falsy in JavaScript, so a zero start is replaced by
`cur - 100000`); afterwards `startBlock = endBlock` plus the loop
increment resumes the outer walk at `endBlock + chunkSize`.  On any
other failure the chunk is skipped.  The nested catch of the source is
unreachable (the recursive call swallows all query errors), so the only
non-value outcome here is fuel exhaustion, which propagates as `none`. -/
def scanLoop (oracle : Oracle) (cur : Nat) :
    Nat → Nat → Nat → Option (List Ev)
  | 0, _, _ => none
  | fuel + 1, chunkSize, startBlock =>
    if cur < startBlock then some []
    else
      let endBlock := min (startBlock + chunkSize - 1) cur
      if endBlock < startBlock then some []
      else
        match oracle true startBlock endBlock with
        | .rangeTooLarge =>
          match scanLoop oracle cur fuel (max 10 (chunkSize / 10))
              (if startBlock = 0 then cur - 100000 else startBlock) with
          | none => none
          | some evs =>
            (scanLoop oracle cur fuel chunkSize (endBlock + chunkSize)).map
              (fun rest => evs ++ rest)
        | .otherError => scanLoop oracle cur fuel chunkSize (startBlock + chunkSize)
        | .ok singles =>
          match oracle false startBlock endBlock with
          | .rangeTooLarge =>
            match scanLoop oracle cur fuel (max 10 (chunkSize / 10))
                (if startBlock = 0 then cur - 100000 else startBlock) with
            | none => none
            | some evs =>
              (scanLoop oracle cur fuel chunkSize (endBlock + chunkSize)).map
                (fun rest => evs ++ rest)
          | .otherError => scanLoop oracle cur fuel chunkSize (startBlock + chunkSize)
          | .ok batches =>
            (scanLoop oracle cur fuel chunkSize (startBlock + chunkSize)).map
              (fun rest => singles ++ batches ++ rest)

/-- `getAllEventsInChunks(contract, fromBlock, chunkSize)`: a missing or
zero `fromBlock` (JavaScript falsiness, source line 22) starts the scan
a bounded window of 100000 blocks below the current block. -/
def scanChunks (oracle : Oracle) (cur fuel : Nat) (fromBlock : Option Nat)
    (chunkSize : Nat) : Option (List Ev) :=
  scanLoop oracle cur fuel chunkSize
    (match fromBlock with
      | none => cur - 100000
      | some 0 => cur - 100000
      | some n => n)

/-- Modelled from the spec: the retry behaviour spec section 4.4 and
claim C9 describe — "recursively reattempt the same sub-range with
chunk size divided by 10 (floored, minimum 10)" — i.e. the retry is
bounded by the failed chunk's `endBlock` and the outer walk then
resumes immediately after it.  This variant exists only to be compared
against `scanLoop`; everything else matches the source. -/
def scanLoopSpec (oracle : Oracle) :
    Nat → Nat → Nat → Nat → Option (List Ev)
  | 0, _, _, _ => none
  | fuel + 1, cur, chunkSize, startBlock =>
    if cur < startBlock then some []
    else
      let endBlock := min (startBlock + chunkSize - 1) cur
      if endBlock < startBlock then some []
      else
        match oracle true startBlock endBlock with
        | .rangeTooLarge =>
          match scanLoopSpec oracle fuel endBlock (max 10 (chunkSize / 10))
              startBlock with
          | none => none
          | some evs =>
            (scanLoopSpec oracle fuel cur chunkSize (endBlock + 1)).map
              (fun rest => evs ++ rest)
        | .otherError => scanLoopSpec oracle fuel cur chunkSize (startBlock + chunkSize)
        | .ok singles =>
          match oracle false startBlock endBlock with
          | .rangeTooLarge =>
            match scanLoopSpec oracle fuel endBlock (max 10 (chunkSize / 10))
                startBlock with
            | none => none
            | some evs =>
              (scanLoopSpec oracle fuel cur chunkSize (endBlock + 1)).map
                (fun rest => evs ++ rest)
          | .otherError =>
            scanLoopSpec oracle fuel cur chunkSize (startBlock + chunkSize)
          | .ok batches =>
            (scanLoopSpec oracle fuel cur chunkSize (startBlock + chunkSize)).map
              (fun rest => singles ++ batches ++ rest)

/-- The comparator of the sort at source line 146
(`(a, b) => a.timestamp - b.timestamp`): ascending by timestamp. -/
def tsLe (p q : Ev × Nat) : Bool := Nat.ble p.2 q.2

/-- Source lines 134-143: annotate every retrieved event with its
block's timestamp (`event.getBlock()`), in retrieval order.  `blockTs`
is the remote ledger's block-number-to-timestamp map. -/
def annotate (blockTs : Nat → Nat) (evs : List Ev) : List (Ev × Nat) :=
  evs.map (fun e => (e, blockTs e.blockNumber))

/-- `getTokenEvents`: chunked retrieval with the default chunk size 100,
then the timestamp sort.  `Array.prototype.sort` is stable (ECMAScript
2019), hence the model sorts with the stable `List.mergeSort`.  The
surrounding conversion into the `TokenTransferEvent` interface preserves
order and multiplicity and is not modelled. -/
def getTokenEventsModel (oracle : Oracle) (blockTs : Nat → Nat)
    (cur fuel : Nat) (fromBlock : Option Nat) : Option (List (Ev × Nat)) :=
  (scanChunks oracle cur fuel fromBlock 100).map
    (fun evs => (annotate blockTs evs).mergeSort tsLe)

/-! ### Comparison definitions and concrete scenarios -/

/-- Modelled from the spec: the validation pass of the
all-validations-precede-all-mutations reading of `mintBatch` (claim C2,
spec section 9): every pair is checked against the *pre-call* state. -/
def validateAll (ti : Nat → TokenInfo) : List (Nat × Nat) → Except Err Unit
  | [] => .ok ()
  | (id, amt) :: rest =>
    if ¬(ti id).isActive then .error .NotFound
    else if (ti id).maxSupply < (ti id).currentSupply + amt then
      .error .SupplyExceeded
    else validateAll ti rest

/-- The supply increments of a batch, applied in order with no
validation (the mutation pass shared by both readings of `mintBatch`). -/
def applySupplies (ti : Nat → TokenInfo) : List (Nat × Nat) → Nat → TokenInfo
  | [] => ti
  | (id, amt) :: rest =>
    applySupplies
      (putTok ti id { ti id with currentSupply := (ti id).currentSupply + amt })
      rest

/-- Modelled from the spec: `mintBatch` as claim C2 reads it — all
validations (against the pre-call state) precede all mutations.  Exists
only to be compared against `mintBatch`. -/
def mintBatchSpec (s : State Addr) (caller dst : Addr)
    (tokenIds amounts : List Nat) : Except Err (State Addr) :=
  if caller ≠ s.owner then .error .Unauthorized
  else if tokenIds.length ≠ amounts.length then .error .LengthMismatch
  else
    match validateAll s.tokenInfo (tokenIds.zip amounts) with
    | .error e => .error e
    | .ok _ => .ok { s with
        tokenInfo := applySupplies s.tokenInfo (tokenIds.zip amounts),
        balances := addBalances s.balances dst (tokenIds.zip amounts) }

/-- Total amount a batch assigns to one token id. -/
def weight : List (Nat × Nat) → Nat → Nat
  | [], _ => 0
  | (i, a) :: rest, id => (if i = id then a else 0) + weight rest id

/-- Sum of all holder balances of one token id. -/
def sumBal [Fintype Addr] (s : State Addr) (id : Nat) : Nat :=
  ∑ a, s.balances id a

/-- Deployment state over two addresses (owner `0`, outsider `1`), with
both accounts holding 5 units of USDC and having granted the contract
an allowance of 5. -/
def s0 : State (Fin 2) := initState 0 (fun _ => 5) (fun _ => 5)

/-- A state in which token 3 is active with `currentSupply = 10`, the
holder (address `1`) owns 10 units of it, and the treasury holds
100 USDC (100000000 six-decimal units). -/
def c6state : State (Fin 2) :=
  { owner := 0
    tokenInfo := fun id =>
      if id = 3 then ⟨"BRONZE", "Bronze", 50, 10, true⟩ else TokenInfo.empty
    balances := fun id a => if id = 3 ∧ a = 1 then 10 else 0
    operatorApprovals := fun _ _ => false
    baseURI := []
    usdc := 100000000
    usdcOf := fun _ => 0
    allowance := fun _ => 0 }

/-- A synthetic remote source holding the given events, rejecting any
query that spans more than `limit` blocks as "range is too large". -/
def limOracle (events : List Ev) (limit : Nat) : Oracle :=
  fun kind a b =>
    if limit < b + 1 - a then .rangeTooLarge
    else .ok (events.filter
      (fun e => (e.single == kind) && Nat.ble a e.blockNumber
        && Nat.ble e.blockNumber b))

/-- One `TransferSingle` event at block 205: beyond the first failed
chunk `[0, 99]` of a 100-chunk scan whose tip is block 210. -/
def ev205 : Ev := ⟨205, true, 0⟩

/-- Events at blocks 5, 50 and 95 of the 100-block scenario `[0, 99]`. -/
def evs100 : List Ev := [⟨5, true, 0⟩, ⟨50, true, 1⟩, ⟨95, true, 2⟩]

end SOTD

/-! ## Helper lemmas: the URI resolver -/

namespace SOTD

/-- Induction following the placeholder scan: a step consuming a whole
match, a step consuming one byte in front of at least three more, and
the verbatim tail of fewer than four bytes. -/
theorem patRec {motive : List Char → Prop}
    (hmatch : ∀ c0 c1 c2 c3 rest, isPat c0 c1 c2 c3 → motive rest →
      motive (c0 :: c1 :: c2 :: c3 :: rest))
    (hskip : ∀ c0 c1 c2 c3 rest, ¬isPat c0 c1 c2 c3 →
      motive (c1 :: c2 :: c3 :: rest) → motive (c0 :: c1 :: c2 :: c3 :: rest))
    (hshort : ∀ l : List Char, l.length < 4 → motive l) :
    ∀ l, motive l := by
  have key : ∀ n (l : List Char), l.length ≤ n → motive l := by
    intro n
    induction n with
    | zero => exact fun l hl => hshort l (by omega)
    | succ n ih =>
      intro l hl
      rcases l with _ | ⟨c0, _ | ⟨c1, _ | ⟨c2, _ | ⟨c3, rest⟩⟩⟩⟩
      · exact hshort [] (by simp)
      · exact hshort [c0] (by simp)
      · exact hshort [c0, c1] (by simp)
      · exact hshort [c0, c1, c2] (by simp)
      · by_cases hp : isPat c0 c1 c2 c3
        · exact hmatch _ _ _ _ _ hp (ih rest (by simp at hl; omega))
        · exact hskip _ _ _ _ _ hp (ih _ (by simp at hl ⊢; omega))
  exact fun l => key l.length l le_rfl

theorem countPat_short {l : List Char} (h : l.length < 4) : countPat l = 0 := by
  rcases l with _ | ⟨c0, _ | ⟨c1, _ | ⟨c2, _ | ⟨c3, rest⟩⟩⟩⟩ <;>
    first
      | rfl
      | (simp only [List.length_cons] at h; omega)

theorem subst_short (hex : List Char) {l : List Char} (h : l.length < 4) :
    subst hex l = l := by
  rcases l with _ | ⟨c0, _ | ⟨c1, _ | ⟨c2, _ | ⟨c3, rest⟩⟩⟩⟩ <;>
    first
      | rfl
      | (simp only [List.length_cons] at h; omega)

theorem subst_of_countPat_zero (hex : List Char) :
    ∀ l : List Char, countPat l = 0 → subst hex l = l := by
  refine patRec ?_ ?_ ?_
  · intro c0 c1 c2 c3 rest hp _ hc
    rw [countPat, if_pos hp] at hc
    omega
  · intro c0 c1 c2 c3 rest hp ih hc
    rw [countPat, if_neg hp] at hc
    rw [subst, if_neg hp, ih hc]
  · intro l hl _
    exact subst_short hex hl

theorem subst_length (hex : List Char) (h64 : hex.length = 64) :
    ∀ l : List Char, (subst hex l).length = l.length + 60 * countPat l := by
  refine patRec ?_ ?_ ?_
  · intro c0 c1 c2 c3 rest hp ih
    rw [subst, if_pos hp, countPat, if_pos hp]
    simp only [List.length_append, List.length_cons, ih, h64]
    omega
  · intro c0 c1 c2 c3 rest hp ih
    rw [subst, if_neg hp, countPat, if_neg hp]
    simp only [List.length_cons, ih]
    omega
  · intro l hl
    rw [subst_short hex hl, countPat_short hl]
    omega

theorem countPat_pos_length {l : List Char} (h : 1 ≤ countPat l) :
    4 ≤ l.length := by
  by_contra hlen
  rw [countPat_short (by omega)] at h
  omega

/-- An exactly-once template splits around its occurrence, and the scan
output is that split with the occurrence replaced by `hex` and every
other byte copied verbatim. -/
theorem count_one_decomp (hex : List Char) :
    ∀ l : List Char, countPat l = 1 →
      ∃ pre suf, l = pre ++ pat ++ suf ∧ countPat suf = 0 ∧
        subst hex l = pre ++ hex ++ suf := by
  refine patRec ?_ ?_ ?_
  · intro c0 c1 c2 c3 rest hp _ hc
    rw [countPat, if_pos hp] at hc
    obtain ⟨h0, h1, h2, h3⟩ := hp
    refine ⟨[], rest, ?_, by omega, ?_⟩
    · simp [pat, h0, h1, h2, h3]
    · rw [subst, if_pos ⟨h0, h1, h2, h3⟩,
        subst_of_countPat_zero hex rest (by omega)]
      simp
  · intro c0 c1 c2 c3 rest hp ih hc
    rw [countPat, if_neg hp] at hc
    obtain ⟨pre, suf, hsplit, hsuf, hout⟩ := ih hc
    refine ⟨c0 :: pre, suf, by simp [hsplit], hsuf, ?_⟩
    rw [subst, if_neg hp, hout]
    simp
  · intro l hl hc
    rw [countPat_short hl] at hc
    omega

theorem uriLoop_ok (hex : List Char) (cap : Nat) :
    ∀ l : List Char, ∀ idx, idx + (subst hex l).length ≤ cap →
      uriLoop hex cap l idx = .ok (subst hex l) := by
  refine patRec ?_ ?_ ?_
  · intro c0 c1 c2 c3 rest hp ih idx hle
    rw [subst, if_pos hp] at hle ⊢
    simp only [List.length_append] at hle
    rw [uriLoop, if_pos hp, if_pos (by omega),
      ih (idx + hex.length) (by omega)]
  · intro c0 c1 c2 c3 rest hp ih idx hle
    rw [subst, if_neg hp] at hle ⊢
    simp only [List.length_cons] at hle
    rw [uriLoop, if_neg hp, if_pos (by omega), ih (idx + 1) (by omega)]
  · intro l hl idx hle
    rw [subst_short hex hl] at hle ⊢
    rcases l with _ | ⟨c0, _ | ⟨c1, _ | ⟨c2, _ | ⟨c3, rest⟩⟩⟩⟩
    · rfl
    · simp only [List.length_cons, List.length_nil] at hle
      simp only [uriLoop]
      split_ifs <;> first | rfl | omega
    · simp only [List.length_cons, List.length_nil] at hle
      simp only [uriLoop]
      split_ifs <;> first | rfl | omega
    · simp only [List.length_cons, List.length_nil] at hle
      simp only [uriLoop]
      split_ifs <;> first | rfl | omega
    · simp only [List.length_cons] at hl
      omega

theorem uriLoop_err (hex : List Char) (cap : Nat) :
    ∀ l : List Char, ∀ idx, idx ≤ cap → cap < idx + (subst hex l).length →
      uriLoop hex cap l idx = .error .OutOfBounds := by
  refine patRec ?_ ?_ ?_
  · intro c0 c1 c2 c3 rest hp ih idx hcap hlt
    rw [subst, if_pos hp] at hlt
    simp only [List.length_append] at hlt
    rw [uriLoop, if_pos hp]
    by_cases hw : idx + hex.length ≤ cap
    · rw [if_pos hw, ih (idx + hex.length) hw (by omega)]
    · rw [if_neg hw]
  · intro c0 c1 c2 c3 rest hp ih idx hcap hlt
    rw [subst, if_neg hp] at hlt
    simp only [List.length_cons] at hlt
    rw [uriLoop, if_neg hp]
    by_cases hw : idx + 1 ≤ cap
    · rw [if_pos hw, ih (idx + 1) hw (by omega)]
    · rw [if_neg hw]
  · intro l hl idx hcap hlt
    rw [subst_short hex hl] at hlt
    rcases l with _ | ⟨c0, _ | ⟨c1, _ | ⟨c2, _ | ⟨c3, rest⟩⟩⟩⟩
    · simp only [List.length_nil] at hlt
      omega
    · simp only [List.length_cons, List.length_nil] at hlt
      simp only [uriLoop]
      split_ifs <;> first | rfl | omega
    · simp only [List.length_cons, List.length_nil] at hlt
      simp only [uriLoop]
      split_ifs <;> first | rfl | omega
    · simp only [List.length_cons, List.length_nil] at hlt
      simp only [uriLoop]
      split_ifs <;> first | rfl | omega
    · simp only [List.length_cons] at hl
      omega

theorem hexLoop_length : ∀ (n v : Nat) (acc : List Char),
    (hexLoop n v acc).length = n + acc.length := by
  intro n
  induction n with
  | zero =>
    intro v acc
    simp [hexLoop]
  | succ n ih =>
    intro v acc
    rw [hexLoop, ih]
    simp only [List.length_cons]
    omega

theorem toHexString_length (v : Nat) : (toHexString v).length = 64 := by
  unfold toHexString
  split
  · simp
  · rw [hexLoop_length]
    rfl

theorem hexChar_mem {n : Nat} (h : n < 16) : hexChar n ∈ hexChars := by
  unfold hexChar
  interval_cases n <;> decide

theorem hexLoop_mem : ∀ (n v : Nat) (acc : List Char),
    (∀ c ∈ acc, c ∈ hexChars) → ∀ c ∈ hexLoop n v acc, c ∈ hexChars := by
  intro n
  induction n with
  | zero =>
    intro v acc hacc
    simpa [hexLoop] using hacc
  | succ n ih =>
    intro v acc hacc
    rw [hexLoop]
    refine ih _ _ ?_
    intro c hc
    rcases List.mem_cons.mp hc with h | h
    · subst h
      exact hexChar_mem (Nat.mod_lt _ (by omega))
    · exact hacc c h

theorem toHexString_mem (v : Nat) : ∀ c ∈ toHexString v, c ∈ hexChars := by
  unfold toHexString
  split
  · intro c hc
    rw [List.eq_of_mem_replicate hc]
    decide
  · exact hexLoop_mem 64 v [] (by simp)

theorem resolveTemplate_count_one {t : List Char} (id : Nat)
    (h : countPat t = 1) :
    resolveTemplate t id = .ok (subst (toHexString id) t) := by
  unfold resolveTemplate
  apply uriLoop_ok
  rw [subst_length _ (toHexString_length id) t, h]
  omega

/-- C7: the URI template resolver is deterministic (definitionally,
being embedded as a pure function); the hexadecimal rendering of the id
is 64 characters drawn from `0-9a-f`; for a template containing the
placeholder exactly once the output length is
`template.length - 4 + 64`, with the placeholder replaced by the
64-character rendering and every other byte copied verbatim; and
`resolve("https://x/\x7bid\x7d.json", 1)` yields the expected string. -/
theorem C7_uri_template_resolution :
    (∀ (template : List Char) (tokenId : Nat),
      resolveTemplate template tokenId = resolveTemplate template tokenId)
    ∧ (∀ tokenId : Nat, (toHexString tokenId).length = 64 ∧
        ∀ c ∈ toHexString tokenId, c ∈ hexChars)
    ∧ (∀ (template : List Char) (tokenId : Nat), countPat template = 1 →
        (resolveTemplate template tokenId).toOption.map List.length
            = some (template.length - 4 + 64)
        ∧ ∃ pre suf, template = pre ++ pat ++ suf ∧
            resolveTemplate template tokenId
              = .ok (pre ++ toHexString tokenId ++ suf))
    ∧ resolveString "https://x/\x7bid\x7d.json" 1
        = .ok "https://x/0000000000000000000000000000000000000000000000000000000000000001.json" := by
  refine ⟨fun _ _ => rfl,
    fun id => ⟨toHexString_length id, toHexString_mem id⟩, ?_, rfl⟩
  intro t id h
  have hok := @resolveTemplate_count_one t id h
  constructor
  · rw [hok]
    have hlen := subst_length (toHexString id) (toHexString_length id) t
    rw [h] at hlen
    have h4 := @countPat_pos_length t (by omega)
    simp only [Except.toOption, Option.map, hlen]
    congr 1
    omega
  · obtain ⟨pre, suf, hsplit, _, hout⟩ := count_one_decomp (toHexString id) t h
    exact ⟨pre, suf, hsplit, by rw [hok, hout]⟩

/-- Witness for C7 at the spec's example template. -/
theorem C7_witness :
    (resolveTemplate ("https://x/\x7bid\x7d.json".toList) 1).toOption.map
        List.length
      = some ("https://x/\x7bid\x7d.json".toList.length - 4 + 64) :=
  (C7_uri_template_resolution.2.2.1 _ 1 (by decide)).1

/-- C10: a base URI template holding two or more placeholders makes the
resolution loop overflow its `template.length + 64`-byte output buffer
(`k` occurrences write `template.length + 60 * k` bytes), so `uri`
reverts with an out-of-bounds panic for every token id and never
returns a partially substituted string. -/
theorem C10_multi_placeholder_always_fails :
    (∀ (template : List Char) (tokenId : Nat), 2 ≤ countPat template →
      resolveTemplate template tokenId = .error .OutOfBounds)
    ∧ (∀ {A : Type} (s : State A) (tokenId : Nat), 2 ≤ countPat s.baseURI →
        (uri s tokenId).isOk = false) := by
  have main : ∀ (t : List Char) (id : Nat), 2 ≤ countPat t →
      resolveTemplate t id = .error .OutOfBounds := by
    intro t id h
    unfold resolveTemplate
    apply uriLoop_err _ _ _ _ (by omega)
    rw [subst_length _ (toHexString_length id) t]
    omega
  refine ⟨main, ?_⟩
  intro A s id h
  unfold uri
  split
  · rfl
  · rw [main _ _ h]
    rfl

/-- Witness for C10 at a template with two placeholders. -/
theorem C10_witness :
    resolveTemplate ("\x7bid\x7d\x7bid\x7d".toList) 7 = .error .OutOfBounds :=
  C10_multi_placeholder_always_fails.1 _ 7 (by decide)

/-! ## Claims about the treasury and burn (C1, C3, C6) -/

/-- C1 counterexample: `addUSDC` carries `onlyOwner` (source line 240),
so the non-owner account 1 — despite a positive amount, sufficient
external USDC balance and prior allowance — is rejected with
`Unauthorized`, contradicting "not owner-gated". -/
theorem C1_counterexample :
    (0 : Nat) < 5 ∧ 5 ≤ s0.usdcOf 1 ∧ 5 ≤ s0.allowance 1
    ∧ (1 : Fin 2) ≠ s0.owner
    ∧ addUSDC s0 1 5 = .error .Unauthorized :=
  ⟨by decide, by decide, by decide, by decide, rfl⟩

/-- C1 amended: the treasury deposit `addUSDC` is owner-gated — every
non-owner caller fails with `Unauthorized`; the owner with a positive
amount, sufficient external USDC balance and prior allowance succeeds,
moving the amount from the owner's external balance (and allowance)
into the contract. -/
theorem C1_amended {A : Type} [DecidableEq A] (s : State A) (caller : A)
    (amount : Nat) :
    (caller ≠ s.owner → addUSDC s caller amount = .error .Unauthorized)
    ∧ (caller = s.owner → 0 < amount → amount ≤ s.usdcOf caller →
        amount ≤ s.allowance caller →
        (addUSDC s caller amount).toOption.map
            (fun s' => (s'.usdc, s'.usdcOf caller, s'.allowance caller))
          = some (s.usdc + amount, s.usdcOf caller - amount,
              s.allowance caller - amount)) := by
  constructor
  · intro h
    rw [addUSDC, if_pos h]
  · intro h h0 hb ha
    rw [addUSDC, if_neg (not_not_intro h), if_neg (by omega),
      if_neg (by omega), if_neg (by omega)]
    simp only [Except.toOption, Option.map_some', Function.update_same]

/-- Witness for C1 amended: the owner deposits 5 USDC. -/
theorem C1_witness :
    (addUSDC s0 0 5).toOption.map
        (fun s' => (s'.usdc, s'.usdcOf 0, s'.allowance 0))
      = some (s0.usdc + 5, s0.usdcOf 0 - 5, s0.allowance 0 - 5) :=
  (C1_amended s0 0 5).2 rfl (by decide) (by decide) (by decide)

/-- C3 counterexample: at deployment the holder 1 has balance 0 of
token 1 (less than the burn amount 1), yet `burn` fails with the
checked-arithmetic underflow panic from `currentSupply -= amount` — not
with `InsufficientBalance` — because no balance check precedes the
supply mutation. -/
theorem C3_counterexample :
    s0.balances 1 1 < 1
    ∧ burn s0 0 1 1 1 = .error .Underflow
    ∧ Err.Underflow ≠ Err.InsufficientBalance :=
  ⟨by decide, rfl, by decide⟩

/-- C3 amended: `burn` fails with `Unauthorized` unless the caller is
`frm` or the owner; there is no explicit pre-check of `frm`'s balance —
when `amount` exceeds `currentSupply` the supply decrement panics with
an arithmetic underflow, while `InsufficientBalance` is raised (by the
inherited `_burn`) only when `amount <= currentSupply` but `frm`'s
balance is short; on success both the supply and the balance decrement.
Failing calls revert, leaving every balance and supply unchanged (in
this embedding an error carries no state at all). -/
theorem C3_amended {A : Type} [DecidableEq A] (s : State A) (caller frm : A)
    (tokenId amount : Nat) :
    (¬(caller = frm ∨ caller = s.owner) →
      burn s caller frm tokenId amount = .error .Unauthorized)
    ∧ ((caller = frm ∨ caller = s.owner) →
        (s.tokenInfo tokenId).currentSupply < amount →
        burn s caller frm tokenId amount = .error .Underflow)
    ∧ ((caller = frm ∨ caller = s.owner) →
        amount ≤ (s.tokenInfo tokenId).currentSupply →
        s.balances tokenId frm < amount →
        burn s caller frm tokenId amount = .error .InsufficientBalance)
    ∧ ((caller = frm ∨ caller = s.owner) →
        amount ≤ (s.tokenInfo tokenId).currentSupply →
        amount ≤ s.balances tokenId frm →
        (burn s caller frm tokenId amount).toOption.map
            (fun s' => ((s'.tokenInfo tokenId).currentSupply,
              s'.balances tokenId frm))
          = some ((s.tokenInfo tokenId).currentSupply - amount,
              s.balances tokenId frm - amount)) := by
  refine ⟨?_, ?_, ?_, ?_⟩
  · intro h
    rw [burn, if_pos h]
  · intro h hs
    rw [burn, if_neg (not_not_intro h), if_pos hs]
  · intro h hs hb
    rw [burn, if_neg (not_not_intro h), if_neg (by omega), if_pos hb]
  · intro h hs hb
    rw [burn, if_neg (not_not_intro h), if_neg (by omega), if_neg (by omega)]
    simp [Except.toOption, putTok, putBal, Function.update_same]

/-- Witness for C3 amended: the owner burns 4 of the holder's 10. -/
theorem C3_witness :
    (burn c6state 0 1 3 4).toOption.map
        (fun s' => ((s'.tokenInfo 3).currentSupply, s'.balances 3 1))
      = some ((c6state.tokenInfo 3).currentSupply - 4,
          c6state.balances 3 1 - 4) :=
  (C3_amended c6state 0 1 3 4).2.2.2 (Or.inr rfl) (by decide) (by decide)

/-- C6: from any state in which token 3 is active, the holder owns 10
units of it (with supply at least covering the burn) and the treasury
holds 100 USDC, the owner's `payback(holder, 3, 4, 50_000000)` succeeds,
leaving the holder with 6 units, the supply 4 lower and the treasury at
50_000000; re-running it with `usdcAmount = 60_000000` fails with
`InsufficientBalance` (the error carries no state: the reverted call
leaves the post-first-call state untouched); and every successful
`payback` performs both the token burn and the USDC transfer (the two
sub-effects of the single atomic transaction). -/
theorem C6_payback_scenario {A : Type} [DecidableEq A] (s : State A)
    (holder : A)
    (hact : (s.tokenInfo 3).isActive = true)
    (hbal : s.balances 3 holder = 10)
    (hsup : 4 ≤ (s.tokenInfo 3).currentSupply)
    (husdc : s.usdc = 100000000) :
    ((payback s s.owner holder 3 4 50000000).toOption.map
        (fun s' => (s'.balances 3 holder, (s'.tokenInfo 3).currentSupply,
          s'.usdc)))
      = some (6, (s.tokenInfo 3).currentSupply - 4, 50000000)
    ∧ ((payback s s.owner holder 3 4 50000000).toOption.map
        (fun s' => payback s' s'.owner holder 3 4 60000000))
      = some (.error .InsufficientBalance)
    ∧ (∀ (t t' : State A) (caller frm : A) (tokenId ta ua : Nat),
        payback t caller frm tokenId ta ua = .ok t' →
        t'.balances tokenId frm = t.balances tokenId frm - ta
        ∧ (t'.tokenInfo tokenId).currentSupply
            = (t.tokenInfo tokenId).currentSupply - ta
        ∧ t'.usdc = t.usdc - ua
        ∧ t'.usdcOf frm = t.usdcOf frm + ua) := by
  have h1 : payback s s.owner holder 3 4 50000000 = .ok { s with
      tokenInfo := putTok s.tokenInfo 3
        { s.tokenInfo 3 with
          currentSupply := (s.tokenInfo 3).currentSupply - 4 },
      balances := putBal s.balances 3 holder (s.balances 3 holder - 4),
      usdc := s.usdc - 50000000,
      usdcOf := Function.update s.usdcOf holder (s.usdcOf holder + 50000000) } := by
    rw [payback, if_neg (not_not_intro rfl),
      if_neg (not_not_intro hact), if_neg (by omega), if_neg (by omega),
      if_neg (by omega), if_neg (by omega), if_neg (by omega)]
  refine ⟨?_, ?_, ?_⟩
  · rw [h1]
    simp only [Except.toOption, Option.map_some', putTok, putBal,
      eq_self_iff_true, if_true, Function.update_same]
    rw [hbal, husdc]
  · rw [h1]
    simp only [Except.toOption, Option.map_some']
    congr 1
    rw [payback]
    rw [if_neg (not_not_intro rfl)]
    rw [if_neg (not_not_intro (show (putTok s.tokenInfo 3
        { s.tokenInfo 3 with
          currentSupply := (s.tokenInfo 3).currentSupply - 4 } 3).isActive
          = true by simp [putTok, hact]))]
    rw [if_neg (by omega)]
    rw [if_neg (show ¬(putBal s.balances 3 holder
        (s.balances 3 holder - 4) 3 holder < 4) by
      simp [putBal, Function.update_same]
      omega)]
    rw [if_neg (by omega)]
    rw [if_pos (show (s.usdc - 50000000 : Nat) < 60000000 by omega)]
  · intro t t' caller frm tokenId ta ua hok
    rw [payback] at hok
    split_ifs at hok
    injection hok with hok
    subst hok
    refine ⟨?_, ?_, rfl, ?_⟩
    · simp [putBal, Function.update_same]
    · simp [putTok]
    · simp [Function.update_same]

/-- Witness for C6 at the concrete scenario state. -/
theorem C6_witness :
    ((payback c6state c6state.owner 1 3 4 50000000).toOption.map
        (fun s' => (s'.balances 3 1, (s'.tokenInfo 3).currentSupply,
          s'.usdc)))
      = some (6, (c6state.tokenInfo 3).currentSupply - 4, 50000000) :=
  (C6_payback_scenario c6state 1 rfl rfl (by decide) rfl).1

/-! ## Claim C2: `mintBatch` validation order -/

/-- Under pairwise-distinct token ids, the interleaved loop of the
source coincides with validating every pair against the pre-call state
and then applying all increments: no earlier pair of the batch can have
touched a later pair's record.  (With duplicate ids the two differ —
see the C2 counterexample.) -/
theorem mintBatchLoop_spec (l : List (Nat × Nat)) :
    ∀ ti ti' : Nat → TokenInfo, (∀ p ∈ l, ti' p.1 = ti p.1) →
      (l.map Prod.fst).Nodup →
      mintBatchLoop ti' l = (match validateAll ti l with
        | .error e => .error e
        | .ok _ => .ok (applySupplies ti' l)) := by
  induction l with
  | nil =>
    intro ti ti' _ _
    rfl
  | cons p rest ih =>
    obtain ⟨id, amt⟩ := p
    intro ti ti' hagree hnodup
    have hid : ti' id = ti id := hagree (id, amt) (List.mem_cons_self _ _)
    rw [mintBatchLoop, validateAll, applySupplies, hid]
    rw [List.map_cons, List.nodup_cons] at hnodup
    by_cases hact : (ti id).isActive = true
    · rw [if_neg (not_not_intro hact), if_neg (not_not_intro hact)]
      by_cases hcap : (ti id).maxSupply < (ti id).currentSupply + amt
      · rw [if_pos hcap, if_pos hcap]
      · rw [if_neg hcap, if_neg hcap]
        apply ih
        · intro q hq
          rw [putTok]
          have hqid : q.1 ≠ id := by
            intro contra
            have hmem : q.1 ∈ rest.map Prod.fst :=
              List.mem_map_of_mem Prod.fst hq
            exact hnodup.1 (contra ▸ hmem)
          rw [if_neg hqid]
          exact hagree q (List.mem_cons_of_mem _ hq)
        · exact hnodup.2
    · rw [if_pos hact, if_pos hact]

/-- C2 counterexample: each pair of `mintBatch(to, [1, 1], [20, 20])`
individually passes validation against the pre-call state (token 1 is
active with supply 0 and max 25), so under
all-validations-precede-all-mutations the batch must succeed — indeed
`mintBatchSpec` accepts it, over-minting to supply 40 > maxSupply 25 —
yet the source rejects it with `SupplyExceeded`, because the second
pair is validated against the supply already incremented by the first
pair. -/
theorem C2_counterexample :
    ((s0.tokenInfo 1).isActive = true
      ∧ (s0.tokenInfo 1).currentSupply + 20 ≤ (s0.tokenInfo 1).maxSupply)
    ∧ mintBatch s0 0 1 [1, 1] [20, 20] = .error .SupplyExceeded
    ∧ (mintBatchSpec s0 0 1 [1, 1] [20, 20]).toOption.map
        (fun s' => ((s'.tokenInfo 1).currentSupply,
          (s'.tokenInfo 1).maxSupply))
      = some (40, 25) :=
  ⟨⟨rfl, by decide⟩, rfl, rfl⟩

/-- C2 amended: `mintBatch` checks the array lengths first (failing
with `LengthMismatch`), then validates each pair against the running
state — the supply as already incremented by the batch's earlier pairs
— immediately before mutating it; any failure rejects the entire batch
(a reverted call carries no state change in this embedding).  When the
token ids are pairwise distinct this interleaving coincides with
all-validations-precede-all-mutations. -/
theorem C2_amended {A : Type} [DecidableEq A] (s : State A) (caller dst : A)
    (tokenIds amounts : List Nat) :
    (caller = s.owner → tokenIds.length ≠ amounts.length →
      mintBatch s caller dst tokenIds amounts = .error .LengthMismatch)
    ∧ (tokenIds.Nodup →
        mintBatch s caller dst tokenIds amounts
          = mintBatchSpec s caller dst tokenIds amounts) := by
  constructor
  · intro hown hlen
    rw [mintBatch, if_neg (not_not_intro hown), if_pos hlen]
  · intro hnd
    rw [mintBatch, mintBatchSpec]
    by_cases hown : caller ≠ s.owner
    · rw [if_pos hown, if_pos hown]
    · rw [if_neg hown, if_neg hown]
      by_cases hlen : tokenIds.length ≠ amounts.length
      · rw [if_pos hlen, if_pos hlen]
      · rw [if_neg hlen, if_neg hlen]
        have hnodup : ((tokenIds.zip amounts).map Prod.fst).Nodup := by
          rw [List.map_fst_zip tokenIds amounts (le_of_eq (not_not.mp hlen))]
          exact hnd
        rw [mintBatchLoop_spec (tokenIds.zip amounts) s.tokenInfo s.tokenInfo
          (fun _ _ => rfl) hnodup]
        cases hv : validateAll s.tokenInfo (tokenIds.zip amounts) with
        | error e => rfl
        | ok u => rfl

/-- Witness for C2 amended: with distinct ids the source agrees with
the all-validations-first reading. -/
theorem C2_witness :
    mintBatch s0 0 1 [1, 2] [3, 4] = mintBatchSpec s0 0 1 [1, 2] [3, 4] :=
  (C2_amended s0 0 1 [1, 2] [3, 4]).2 (by decide)

/-! ## Claims C8 and C9: the event scanner -/

theorem tsLe_trans (a b c : Ev × Nat) (h1 : tsLe a b = true)
    (h2 : tsLe b c = true) : tsLe a c = true := by
  simp only [tsLe, Nat.ble_eq] at *
  omega

theorem tsLe_total (a b : Ev × Nat) : (tsLe a b || tsLe b a) = true := by
  simp only [tsLe, Nat.ble_eq, Bool.or_eq_true]
  omega

/-- C8 counterexample: with a source rejecting spans over 20 blocks, a
scan to tip 210 first fails on chunk `[0, 99]`; the retry rescans
`[0, 210]` in 10-block chunks and already retrieves the single event at
block 205, after which the outer loop resumes at block 199 and the
succeeding query over `[199, 210]` retrieves it again — the returned
stream holds the one emitted event twice. -/
theorem C8_counterexample :
    ((getTokenEventsModel (limOracle [ev205] 20) (fun b => 2 * b) 210 50
        none).getD []).countP (fun p => decide (p = (ev205, 410))) = 2 := by
  have hscan : scanChunks (limOracle [ev205] 20) 210 50 none 100
      = some [ev205, ev205] := by decide
  have hperm := List.mergeSort_perm
    (annotate (fun b => 2 * b) [ev205, ev205]) tsLe
  rw [getTokenEventsModel, hscan]
  simp only [Option.map_some', Option.getD_some]
  refine (hperm.countP_eq _).trans ?_
  decide

/-- C8 amended: whenever the chunked retrieval completes, the returned
stream is the retrieved sequence sorted stably into ascending timestamp
order — `Pairwise (≤)` on timestamps, a permutation of the retrieval
(no event lost or invented by sorting), and any retrieval-ordered chain
of tied-or-ascending events keeps its relative order.  The
at-most-once part of the claim is false: a range-too-large retry
rescans from the failed chunk's start to the scan tip while the outer
loop also continues past the failed chunk, so events beyond it can be
retrieved twice. -/
theorem C8_amended (oracle : Oracle) (blockTs : Nat → Nat) (cur fuel : Nat)
    (fromBlock : Option Nat) (evs : List Ev)
    (h : scanChunks oracle cur fuel fromBlock 100 = some evs) :
    getTokenEventsModel oracle blockTs cur fuel fromBlock
      = some ((annotate blockTs evs).mergeSort tsLe)
    ∧ ((annotate blockTs evs).mergeSort tsLe).Pairwise
        (fun p q => p.2 ≤ q.2)
    ∧ ((annotate blockTs evs).mergeSort tsLe).Perm (annotate blockTs evs)
    ∧ (∀ c : List (Ev × Nat), c.Pairwise (fun p q => tsLe p q = true) →
        c.Sublist (annotate blockTs evs) →
        c.Sublist ((annotate blockTs evs).mergeSort tsLe)) := by
  refine ⟨?_, ?_, ?_, ?_⟩
  · rw [getTokenEventsModel, h]
    rfl
  · have hs := @List.sorted_mergeSort (Ev × Nat) tsLe tsLe_trans tsLe_total
      (annotate blockTs evs)
    exact hs.imp (fun hab => by simpa [tsLe, Nat.ble_eq] using hab)
  · exact List.mergeSort_perm _ _
  · intro c hc hsub
    exact List.sublist_mergeSort tsLe_trans tsLe_total hc hsub

/-- Witness for C8 amended at the 100-block scenario. -/
theorem C8_witness :
    getTokenEventsModel (limOracle evs100 20) (fun b => 2 * b) 99 50 none
      = some ((annotate (fun b => 2 * b) evs100).mergeSort tsLe) :=
  (C8_amended (limOracle evs100 20) (fun b => 2 * b) 99 50 none evs100 rfl).1

/-- C9 counterexample: the retry does *not* reattempt exactly the
failed sub-range.  With the span-limit-20 source and tip 210 the only
failing chunk is `[0, 99]`, and the event at block 205 lies outside it;
the source's scan returns that event twice, whereas the
`scanLoopSpec` variant, whose retry is bounded to the failed sub-range
as the claim describes, returns it exactly once. -/
theorem C9_counterexample :
    scanChunks (limOracle [ev205] 20) 210 50 none 100 = some [ev205, ev205]
    ∧ scanLoopSpec (limOracle [ev205] 20) 50 210 100 0 = some [ev205] :=
  ⟨rfl, rfl⟩

/-- C9 amended: on a range-too-large failure the scanner retries with
chunk size `max 10 (chunkSize / 10)` over the range from the failed
chunk's start to the scan tip (not only the failed sub-range), then
resumes the outer walk past the failed chunk, so events beyond it can
be fetched twice; if the retry fails the chunk is skipped.  For a
source rejecting spans over 20 blocks, scanning the 100-block range
`[0, 99]` with initial chunk size 100 terminates and returns exactly
the events of the range (here the retry's coverage coincides with the
failed chunk, which is the whole range). -/
theorem C9_amended :
    scanChunks (limOracle evs100 20) 99 50 none 100 = some evs100
    ∧ scanChunks (limOracle [ev205] 20) 210 50 none 100
      = some [ev205, ev205] :=
  ⟨rfl, rfl⟩

/-! ## Claim C4: supply bounds -/

theorem mintBatchLoop_le (l : List (Nat × Nat)) :
    ∀ ti ti' : Nat → TokenInfo, mintBatchLoop ti l = .ok ti' →
      (∀ i, (ti i).currentSupply ≤ (ti i).maxSupply) →
      ∀ i, (ti' i).currentSupply ≤ (ti' i).maxSupply := by
  induction l with
  | nil =>
    intro ti ti' h hinv
    injection h with h
    subst h
    exact hinv
  | cons p rest ih =>
    obtain ⟨id, amt⟩ := p
    intro ti ti' h hinv
    rw [mintBatchLoop] at h
    split_ifs at h with h1 h2
    refine ih _ _ h ?_
    intro i
    rw [putTok]
    by_cases hi : i = id
    · rw [if_pos hi]
      show (ti id).currentSupply + amt ≤ (ti id).maxSupply
      omega
    · rw [if_neg hi]
      exact hinv i

theorem exec_supply_le {A : Type} [DecidableEq A] {s s' : State A} (op : Op A)
    (h : exec s op = .ok s')
    (hinv : ∀ i, (s.tokenInfo i).currentSupply ≤ (s.tokenInfo i).maxSupply) :
    ∀ i, (s'.tokenInfo i).currentSupply ≤ (s'.tokenInfo i).maxSupply := by
  cases op with
  | createToken c id nm d m =>
    rw [exec, createToken] at h
    split_ifs at h with h1 h2 h3
    injection h with h
    subst h
    intro i
    rw [createTokenRecord]
    simp only [putTok]
    by_cases hi : i = id
    · simp only [if_pos hi]
      exact Nat.zero_le m
    · simp only [if_neg hi]
      exact hinv i
  | mint c dst id amt =>
    rw [exec, mint] at h
    split_ifs at h with h1 h2 h3
    injection h with h
    subst h
    intro i
    simp only [putTok]
    by_cases hi : i = id
    · simp only [if_pos hi]
      show (s.tokenInfo id).currentSupply + amt ≤ (s.tokenInfo id).maxSupply
      omega
    · simp only [if_neg hi]
      exact hinv i
  | mintBatch c dst ids amts =>
    rw [exec, mintBatch] at h
    split_ifs at h with h1 h2
    cases hloop : mintBatchLoop s.tokenInfo (ids.zip amts) with
    | error e =>
      rw [hloop] at h
      exact Except.noConfusion h
    | ok ti' =>
      rw [hloop] at h
      injection h with h
      subst h
      exact mintBatchLoop_le _ _ _ hloop hinv
  | burn c frm id amt =>
    rw [exec, burn] at h
    split_ifs at h with h1 h2 h3
    injection h with h
    subst h
    intro i
    simp only [putTok]
    by_cases hi : i = id
    · simp only [if_pos hi]
      show (s.tokenInfo id).currentSupply - amt ≤ (s.tokenInfo id).maxSupply
      have := hinv id
      omega
    · simp only [if_neg hi]
      exact hinv i
  | payback c frm id ta ua =>
    rw [exec, payback] at h
    split_ifs at h with h1 h2 h3 h4 h5 h6 h7
    injection h with h
    subst h
    intro i
    simp only [putTok]
    by_cases hi : i = id
    · simp only [if_pos hi]
      show (s.tokenInfo id).currentSupply - ta ≤ (s.tokenInfo id).maxSupply
      have := hinv id
      omega
    · simp only [if_neg hi]
      exact hinv i
  | payDividend c dst ua =>
    rw [exec, payDividend] at h
    split_ifs at h
    injection h with h
    subst h
    exact hinv
  | withdrawUSDC c a =>
    rw [exec, withdrawUSDC] at h
    split_ifs at h
    injection h with h
    subst h
    exact hinv
  | addUSDC c a =>
    rw [exec, addUSDC] at h
    split_ifs at h
    injection h with h
    subst h
    exact hinv
  | updateTokenInfo c id nm d =>
    rw [exec, updateTokenInfo] at h
    split_ifs at h
    injection h with h
    subst h
    intro i
    simp only [putTok]
    by_cases hi : i = id
    · simp only [if_pos hi]
      exact hinv id
    · simp only [if_neg hi]
      exact hinv i
  | setBaseURI c u =>
    rw [exec, setBaseURI] at h
    split_ifs at h
    injection h with h
    subst h
    exact hinv
  | setApprovalForAll c o ap =>
    rw [exec, setApprovalForAll] at h
    injection h with h
    subst h
    exact hinv
  | safeTransferFrom c frm dst id amt =>
    rw [exec, safeTransferFrom] at h
    split_ifs at h
    injection h with h
    subst h
    exact hinv

/-- C4: in every reachable state — deployment followed by any sequence
of successful external calls — every token record satisfies
`0 <= currentSupply <= maxSupply`. -/
theorem C4_supply_invariant {A : Type} [DecidableEq A] (s : State A)
    (h : Reachable s) (tokenId : Nat) :
    0 ≤ (s.tokenInfo tokenId).currentSupply
    ∧ (s.tokenInfo tokenId).currentSupply
        ≤ (s.tokenInfo tokenId).maxSupply := by
  have main : ∀ i, (s.tokenInfo i).currentSupply ≤ (s.tokenInfo i).maxSupply := by
    induction h with
    | init d eb ea =>
      intro i
      rw [initState]
      show ((if i = 1 then TokenInfo.mk "GOLD" "Gold" 25 0 true
        else if i = 2 then TokenInfo.mk "SILVER" "Silver" 20 0 true
        else if i = 3 then TokenInfo.mk "BRONZE" "Bronze" 50 0 true
        else TokenInfo.empty).currentSupply ≤ _)
      split_ifs <;> simp [TokenInfo.empty]
    | step op hr hok ih =>
      exact exec_supply_le op hok ih
  exact ⟨Nat.zero_le _, main tokenId⟩

/-- Witness for C4 at the deployment state. -/
theorem C4_witness :
    0 ≤ ((initState (0 : Fin 2) (fun _ => 0) (fun _ => 0)).tokenInfo 1).currentSupply
    ∧ ((initState (0 : Fin 2) (fun _ => 0) (fun _ => 0)).tokenInfo 1).currentSupply
      ≤ ((initState (0 : Fin 2) (fun _ => 0) (fun _ => 0)).tokenInfo 1).maxSupply :=
  C4_supply_invariant _ (Reachable.init 0 (fun _ => 0) (fun _ => 0)) 1

/-! ## Claim C5: holder balances sum to the supply -/

theorem sum_split {A : Type} [DecidableEq A] [Fintype A] (f : A → Nat)
    (a : A) :
    ∑ x, f x = f a + ∑ x ∈ Finset.univ \ {a}, f x := by
  conv_lhs =>
    rw [show f = Function.update f a (f a) from (Function.update_eq_self a f).symm]
  rw [Finset.sum_update_of_mem (Finset.mem_univ a)]

theorem sum_update_add {A : Type} [DecidableEq A] [Fintype A] (f : A → Nat)
    (a : A) (amt : Nat) :
    ∑ x, Function.update f a (f a + amt) x = (∑ x, f x) + amt := by
  rw [Finset.sum_update_of_mem (Finset.mem_univ a), sum_split f a]
  omega

theorem sum_update_sub {A : Type} [DecidableEq A] [Fintype A] (f : A → Nat)
    (a : A) (amt : Nat) (hle : amt ≤ f a) :
    ∑ x, Function.update f a (f a - amt) x = (∑ x, f x) - amt := by
  rw [Finset.sum_update_of_mem (Finset.mem_univ a), sum_split f a]
  omega

theorem le_sum {A : Type} [DecidableEq A] [Fintype A] (f : A → Nat) (a : A) :
    f a ≤ ∑ x, f x := by
  rw [sum_split f a]
  omega

theorem addBalances_sum {A : Type} [DecidableEq A] [Fintype A]
    (l : List (Nat × Nat)) :
    ∀ (b : Nat → A → Nat) (dst : A) (id : Nat),
      ∑ a, addBalances b dst l id a = (∑ a, b id a) + weight l id := by
  induction l with
  | nil =>
    intro b dst id
    rw [addBalances, weight]
    omega
  | cons p rest ih =>
    obtain ⟨i, amt⟩ := p
    intro b dst id
    rw [addBalances, ih, weight]
    by_cases hid : i = id
    · subst hid
      simp only [putBal, eq_self_iff_true, if_true]
      rw [sum_update_add]
      omega
    · have hidr : ¬(id = i) := fun hh => hid hh.symm
      simp only [putBal, if_neg hidr, if_neg hid]
      omega

theorem applySupplies_supply (l : List (Nat × Nat)) :
    ∀ (ti : Nat → TokenInfo) (id : Nat),
      ((applySupplies ti l) id).currentSupply
        = (ti id).currentSupply + weight l id := by
  induction l with
  | nil =>
    intro ti id
    rw [applySupplies, weight]
    omega
  | cons p rest ih =>
    obtain ⟨i, amt⟩ := p
    intro ti id
    rw [applySupplies, ih, weight]
    by_cases hid : i = id
    · subst hid
      simp only [putTok, eq_self_iff_true, if_true]
      omega
    · have hidr : ¬(id = i) := fun hh => hid hh.symm
      simp only [putTok, if_neg hidr, if_neg hid]
      omega

theorem applySupplies_active (l : List (Nat × Nat)) :
    ∀ (ti : Nat → TokenInfo) (id : Nat),
      ((applySupplies ti l) id).isActive = (ti id).isActive := by
  induction l with
  | nil =>
    intro ti id
    rw [applySupplies]
  | cons p rest ih =>
    obtain ⟨i, amt⟩ := p
    intro ti id
    rw [applySupplies, ih]
    by_cases hid : id = i
    · subst hid
      simp only [putTok, eq_self_iff_true, if_true]
    · simp only [putTok, if_neg hid]

theorem mintBatchLoop_ok_eq (l : List (Nat × Nat)) :
    ∀ ti ti' : Nat → TokenInfo, mintBatchLoop ti l = .ok ti' →
      ti' = applySupplies ti l := by
  induction l with
  | nil =>
    intro ti ti' h
    injection h with h
    rw [applySupplies, h]
  | cons p rest ih =>
    obtain ⟨i, amt⟩ := p
    intro ti ti' h
    rw [mintBatchLoop] at h
    split_ifs at h
    rw [applySupplies]
    exact ih _ _ h

theorem mintBatchLoop_inactive (l : List (Nat × Nat)) :
    ∀ (ti : Nat → TokenInfo) (ti' : Nat → TokenInfo) (id : Nat),
      mintBatchLoop ti l = .ok ti' → (ti id).isActive = false →
      weight l id = 0 := by
  induction l with
  | nil =>
    intro ti ti' id _ _
    rw [weight]
  | cons p rest ih =>
    obtain ⟨i, amt⟩ := p
    intro ti ti' id h hina
    rw [mintBatchLoop] at h
    split_ifs at h with h1 h2
    rw [weight]
    have hii : ¬(i = id) := by
      intro hh
      rw [hh, hina] at h1
      exact Bool.noConfusion h1
    rw [if_neg hii]
    have hrec := ih _ _ id h
    rw [hrec ?_]
    simp only [putTok]
    have hidr : ¬(id = i) := fun hh => hii hh.symm
    rw [if_neg hidr]
    exact hina

theorem exec_sum_inv {A : Type} [DecidableEq A] [Fintype A]
    {s s' : State A} (op : Op A) (h : exec s op = .ok s')
    (hsum : ∀ id, sumBal s id = (s.tokenInfo id).currentSupply)
    (hina : ∀ id, (s.tokenInfo id).isActive = false →
      (s.tokenInfo id).currentSupply = 0) :
    (∀ id, sumBal s' id = (s'.tokenInfo id).currentSupply)
    ∧ (∀ id, (s'.tokenInfo id).isActive = false →
        (s'.tokenInfo id).currentSupply = 0) := by
  simp only [sumBal] at hsum ⊢
  cases op with
  | createToken c tid nm d m =>
    rw [exec, createToken] at h
    split_ifs at h with h1 h2 h3
    injection h with h
    subst h
    rw [createTokenRecord]
    constructor
    · intro id
      simp only [putTok]
      by_cases hid : id = tid
      · simp only [if_pos hid]
        rw [hsum id, hid]
        exact hina tid (by simpa using h2)
      · simp only [if_neg hid]
        exact hsum id
    · intro id hact
      simp only [putTok] at hact ⊢
      by_cases hid : id = tid
      · simp only [if_pos hid] at hact
        exact Bool.noConfusion hact
      · simp only [if_neg hid] at hact ⊢
        exact hina id hact
  | mint c dst tid amt =>
    rw [exec, mint] at h
    split_ifs at h with h1 h2 h3
    injection h with h
    subst h
    constructor
    · intro id
      simp only [putTok, putBal]
      by_cases hid : id = tid
      · subst hid
        simp only [eq_self_iff_true, if_true]
        rw [sum_update_add, hsum id]
      · simp only [if_neg hid]
        exact hsum id
    · intro id hact
      simp only [putTok] at hact ⊢
      by_cases hid : id = tid
      · simp only [if_pos hid] at hact
        rw [hact] at h2
        exact Bool.noConfusion h2
      · simp only [if_neg hid] at hact ⊢
        exact hina id hact
  | mintBatch c dst ids amts =>
    rw [exec, mintBatch] at h
    split_ifs at h with h1 h2
    cases hloop : mintBatchLoop s.tokenInfo (ids.zip amts) with
    | error e =>
      rw [hloop] at h
      exact Except.noConfusion h
    | ok ti' =>
      rw [hloop] at h
      injection h with h
      subst h
      have hti : ti' = applySupplies s.tokenInfo (ids.zip amts) :=
        mintBatchLoop_ok_eq _ _ _ hloop
      constructor
      · intro id
        show ∑ a, addBalances s.balances dst (ids.zip amts) id a
          = (ti' id).currentSupply
        rw [addBalances_sum, hti, applySupplies_supply, hsum id]
      · intro id hact
        rw [hti, applySupplies_active] at hact
        rw [hti, applySupplies_supply, hina id hact,
          mintBatchLoop_inactive _ _ _ id hloop hact]
  | burn c frm tid amt =>
    rw [exec, burn] at h
    split_ifs at h with h1 h2 h3
    injection h with h
    subst h
    constructor
    · intro id
      simp only [putTok, putBal]
      by_cases hid : id = tid
      · subst hid
        simp only [eq_self_iff_true, if_true]
        rw [sum_update_sub _ _ _ (by omega), hsum id]
      · simp only [if_neg hid]
        exact hsum id
    · intro id hact
      simp only [putTok] at hact ⊢
      by_cases hid : id = tid
      · simp only [if_pos hid] at hact ⊢
        have := hina tid hact
        omega
      · simp only [if_neg hid] at hact ⊢
        exact hina id hact
  | payback c frm tid ta ua =>
    rw [exec, payback] at h
    split_ifs at h with h1 h2 h3 h4 h5 h6 h7
    injection h with h
    subst h
    constructor
    · intro id
      simp only [putTok, putBal]
      by_cases hid : id = tid
      · subst hid
        simp only [eq_self_iff_true, if_true]
        rw [sum_update_sub _ _ _ (by omega), hsum id]
      · simp only [if_neg hid]
        exact hsum id
    · intro id hact
      simp only [putTok] at hact ⊢
      by_cases hid : id = tid
      · simp only [if_pos hid] at hact
        rw [hact] at h2
        exact Bool.noConfusion h2
      · simp only [if_neg hid] at hact ⊢
        exact hina id hact
  | payDividend c dst ua =>
    rw [exec, payDividend] at h
    split_ifs at h
    injection h with h
    subst h
    exact ⟨hsum, hina⟩
  | withdrawUSDC c a =>
    rw [exec, withdrawUSDC] at h
    split_ifs at h
    injection h with h
    subst h
    exact ⟨hsum, hina⟩
  | addUSDC c a =>
    rw [exec, addUSDC] at h
    split_ifs at h
    injection h with h
    subst h
    exact ⟨hsum, hina⟩
  | updateTokenInfo c tid nm d =>
    rw [exec, updateTokenInfo] at h
    split_ifs at h
    injection h with h
    subst h
    constructor
    · intro id
      simp only [putTok]
      by_cases hid : id = tid
      · simp only [if_pos hid]
        rw [hsum id, hid]
      · simp only [if_neg hid]
        exact hsum id
    · intro id hact
      simp only [putTok] at hact ⊢
      by_cases hid : id = tid
      · simp only [if_pos hid] at hact ⊢
        exact hina tid hact
      · simp only [if_neg hid] at hact ⊢
        exact hina id hact
  | setBaseURI c u =>
    rw [exec, setBaseURI] at h
    split_ifs at h
    injection h with h
    subst h
    exact ⟨hsum, hina⟩
  | setApprovalForAll c o ap =>
    rw [exec, setApprovalForAll] at h
    injection h with h
    subst h
    exact ⟨hsum, hina⟩
  | safeTransferFrom c frm dst tid amt =>
    rw [exec, safeTransferFrom] at h
    split_ifs at h with h1 h2
    injection h with h
    subst h
    constructor
    · intro id
      simp only [putTok, putBal]
      by_cases hid : id = tid
      · subst hid
        simp only [eq_self_iff_true, if_true]
        rw [sum_update_add, sum_update_sub _ _ _ (by omega)]
        have hle := le_sum (s.balances id) frm
        rw [hsum id] at hle ⊢
        omega
      · simp only [if_neg hid]
        exact hsum id
    · exact hina

/-- C5: in every reachable state the holder balances of each token id
sum to that token's `currentSupply`; the induction steps through every
state-mutating operation (mint, mintBatch, burn, payback, transfer and
the rest), so each of them preserves the equality. -/
theorem C5_balance_sum_invariant {A : Type} [DecidableEq A] [Fintype A]
    (s : State A) (h : Reachable s) (tokenId : Nat) :
    sumBal s tokenId = (s.tokenInfo tokenId).currentSupply := by
  have main : (∀ id, sumBal s id = (s.tokenInfo id).currentSupply)
      ∧ (∀ id, (s.tokenInfo id).isActive = false →
          (s.tokenInfo id).currentSupply = 0) := by
    induction h with
    | init d eb ea =>
      constructor
      · intro id
        simp only [sumBal, initState]
        split_ifs <;> simp [TokenInfo.empty]
      · intro id hact
        simp only [initState] at hact ⊢
        split_ifs at hact ⊢ <;>
          first
            | rfl
            | exact Bool.noConfusion hact
    | step op hr hok ih =>
      exact exec_sum_inv op hok ih.1 ih.2
  exact main.1 tokenId

/-- Witness for C5 at the deployment state. -/
theorem C5_witness :
    sumBal (initState (0 : Fin 2) (fun _ => 0) (fun _ => 0)) 1
      = ((initState (0 : Fin 2) (fun _ => 0)
          (fun _ => 0)).tokenInfo 1).currentSupply :=
  C5_balance_sum_invariant _ (Reachable.init 0 (fun _ => 0) (fun _ => 0)) 1

end SOTD
